import Mathlib

/-!
Verification development for the binary serialization core in
src/Serializable.h (namespace serial).

Modelling conventions, fixed once for the whole file:

- A C++ scalar type T is represented by a descriptor CppScalar holding the
  trait data the header branches on: is_integral / is_floating_point
  (field kind), sizeof in bytes (field size), and is_signed (field signed).
  CHAR_BIT is taken to be 8, the case the Serializable constructor assert
  and the endian.h byte swappers presuppose.
- A machine value of T is represented by its bit pattern, a Nat below
  2 to the bit width.  Signed integers are their twos-complement pattern
  and floating values are their IEEE bit pattern; the header itself only
  moves bit patterns (the float paths reinterpret through unions), so all
  byte level statements are exact at this level.
- The host is modelled as little-endian: htole16/32/64 and le16/32/64toh
  are identities, and the LITTLE_ENDIAN branch of the 128-bit union code
  is taken.  This matches the layout the header itself anticipates.
- uchar arithmetic is Nat arithmetic mod 256, uint32_t arithmetic is Nat
  arithmetic mod 2 to the 32; a ByteVec is a List Nat whose entries are
  byte values (loads from a ByteVec reduce mod 256, embedding the uchar
  element type).
-/

namespace serial

/-- The serial::Type enumeration of Serializable.h line 18 (named Type-apostrophe
because Type is a Lean keyword). -/
inductive Type' where
  | NONE | UINT8 | INT8 | UINT16 | INT16 | UINT32 | INT32 | UINT64 | INT64
  | FLT32 | FLT64 | FLT128
deriving DecidableEq

/-- The compile-time trait class of a C++ type: std::is_integral,
std::is_floating_point, or neither. -/
inductive Kind where
  | integral | floating | other
deriving DecidableEq

/-- Descriptor of a C++ scalar type: its trait kind, sizeof in bytes, and
signedness.  The header reads exactly these three pieces of static data. -/
structure CppScalar where
  kind : Kind
  size : Nat
  signed : Bool
deriving DecidableEq

/-- serial::ByteVec, a std::vector of uchar. -/
abbrev ByteVec := List Nat

/-- serial::SerializedMember, a std::pair of Type and ByteVec. -/
abbrev SerializedMember := Type' × ByteVec

/-- Template _getSize (lines 25-32): CHAR_BIT * sizeof(T) truncated to uchar,
rounded up to a multiple of 8 (the rounding branch is vacuous at CHAR_BIT = 8
but is kept as written). -/
def _getSize (T : CppScalar) : Nat :=
  let raw := (8 * T.size) % 256
  let remainder := raw % 8
  if remainder = 0 then raw else (raw + 8 - remainder) % 256

/-- _getTypeKeyInt (lines 34-48): classify an integral type by rounded bit
width and signedness. -/
def _getTypeKeyInt (T : CppScalar) : Type' :=
  match _getSize T with
  | 8 => if T.signed then Type'.INT8 else Type'.UINT8
  | 16 => if T.signed then Type'.INT16 else Type'.UINT16
  | 32 => if T.signed then Type'.INT32 else Type'.UINT32
  | 64 => if T.signed then Type'.INT64 else Type'.UINT64
  | _ => Type'.NONE

/-- _getTypeKeyFloat (lines 50-63): classify a floating type by rounded bit
width alone. -/
def _getTypeKeyFloat (T : CppScalar) : Type' :=
  match _getSize T with
  | 32 => Type'.FLT32
  | 64 => Type'.FLT64
  | 128 => Type'.FLT128
  | _ => Type'.NONE

/-- _getTypeKey (lines 65-71): dispatch on the trait kind. -/
def _getTypeKey (T : CppScalar) : Type' :=
  match T.kind with
  | Kind.integral => _getTypeKeyInt T
  | Kind.floating => _getTypeKeyFloat T
  | Kind.other => Type'.NONE

/-- _fillArrayInt (lines 73-105): store-to-little-endian (identity on the LE
host) then push the bytes (value shifted by 0, 8, ..., size-8, each truncated
to uchar).  The loop runs size/8 times. -/
def _fillArrayInt (T : CppScalar) (input : Nat) : ByteVec :=
  (List.range (_getSize T / 8)).map (fun k => (input >>> (8 * k)) % 256)

/-- _floatToInt128 (lines 121-141): split the 128-bit pattern into the two
64-bit words of the union (on the LE host word 0 is the low half), encode each
with _fillArrayInt at int64_t, and concatenate low-then-high. -/
def _floatToInt128 (input : Nat) : ByteVec :=
  _fillArrayInt ⟨Kind.integral, 8, true⟩ (input % 2 ^ 64) ++
    _fillArrayInt ⟨Kind.integral, 8, true⟩ (input >>> 64)

/-- _fillArrayFloat (lines 143-156): reinterpret the float pattern as a same
width integer (_floatToInt, lines 107-119, is the identity on patterns) and
use the integer filler; 128-bit patterns go through _floatToInt128; other
widths produce the empty vector. -/
def _fillArrayFloat (T : CppScalar) (input : Nat) : ByteVec :=
  match _getSize T with
  | 32 => _fillArrayInt ⟨Kind.integral, 4, true⟩ input
  | 64 => _fillArrayInt ⟨Kind.integral, 8, true⟩ input
  | 128 => _floatToInt128 input
  | _ => []

/-- _fillArray (lines 158-177): the three enable_if overloads, selected by the
trait kind; non-arithmetic types encode to the empty vector. -/
def _fillArray (T : CppScalar) (input : Nat) : ByteVec :=
  match T.kind with
  | Kind.integral => _fillArrayInt T input
  | Kind.floating => _fillArrayFloat T input
  | Kind.other => []

/-- The uint32_t descriptor, used by _setSize and the count reads. -/
def uint32T : CppScalar := ⟨Kind.integral, 4, false⟩

/-- _setSize (lines 179-185): prepend the 4 little-endian bytes of the
uint32_t size argument (the parameter type truncates mod 2 to the 32). -/
def _setSize (arr : ByteVec) (size : Nat) : ByteVec :=
  _fillArrayInt uint32T (size % 2 ^ 32) ++ arr

/-- _readArrayInt (lines 187-214), reassembling a little-endian byte vector
into a value, with the length guard returning 0 on width mismatch.

As written the source loop (lines 195-196) is ill-formed: it declares ii,
advances it one bit at a time, but indexes and shifts with an undeclared
name i.  This definition models the evident intent, the mirror image of the
_fillArrayInt loop: for i = 0, 8, ..., size-8 the byte at i/8 is shifted in
at bit offset i (le-to-host conversion is the identity on the LE host).
The literal minimal repair of the source loop is modelled separately as
_readArrayIntBuggy below. -/
def _readArrayInt (T : CppScalar) (input : ByteVec) : Nat :=
  let size := _getSize T
  if size / 8 ≠ input.length then 0
  else (List.range (size / 8)).foldl
    (fun v k => v ||| ((input.getD k 0 % 256) <<< (8 * k))) 0

/-- The decode loop of _readArrayInt exactly as the source writes it, under
the minimal repair that reads the undeclared i as the loop variable ii: ii
advances by single bits (++ii), the byte at ii/8 is shifted in at bit offset
ii, and each compound assignment to the T-typed accumulator truncates to the
type width.  (For unsigned T this is the exact C++ semantics of line 196.) -/
def _readArrayIntBuggy (T : CppScalar) (input : ByteVec) : Nat :=
  let size := _getSize T
  if size / 8 ≠ input.length then 0
  else (List.range size).foldl
    (fun v ii => (v ||| ((input.getD (ii / 8) 0 % 256) <<< ii)) % 2 ^ size) 0

/-- _intToFloat128 (lines 232-257): reject inputs that are not 16 bytes, read
the two 64-bit little-endian words, and compose them low-then-high (the
LITTLE_ENDIAN branch of the union assignment). -/
def _intToFloat128 (input : ByteVec) : Nat :=
  if input.length ≠ 16 then 0
  else
    _readArrayInt ⟨Kind.integral, 8, true⟩ (input.take 8) |||
      (_readArrayInt ⟨Kind.integral, 8, true⟩ (input.drop 8) <<< 64)

/-- _readArrayFloat (lines 259-275): length guard, then the width dispatch;
_intToFloat (lines 216-230) is the identity on bit patterns so the 32- and
64-bit cases are integer reads. -/
def _readArrayFloat (T : CppScalar) (input : ByteVec) : Nat :=
  let size := _getSize T
  if size / 8 ≠ input.length then 0
  else
    match size with
    | 32 => _readArrayInt ⟨Kind.integral, 4, true⟩ input
    | 64 => _readArrayInt ⟨Kind.integral, 8, true⟩ input
    | 128 => _intToFloat128 input
    | _ => 0

/-- _readArray (lines 277-296): the three enable_if overloads; non-arithmetic
types decode to zero. -/
def _readArray (T : CppScalar) (input : ByteVec) : Nat :=
  match T.kind with
  | Kind.integral => _readArrayInt T input
  | Kind.floating => _readArrayFloat T input
  | Kind.other => 0

/-- The ByteVec overload of _getSize (lines 298-302): read the first four
bytes as a little-endian uint32_t.  The source builds the ByteVec from
t.begin() to t.begin()+4 (as written with a comma typo for the dot); the
take models that slice, and the fact that the slice itself requires four
bytes to be present is tracked separately by readByteVecAccessOk. -/
def _getSizeVec (t : ByteVec) : Nat :=
  _readArrayInt uint32T (List.take 4 t)

/-- OutStreamHelper of T, streamOut (lines 379-393): encode the scalar; if the
encoding is empty leave the member untouched, otherwise prepend the count 1
and overwrite the member with the (type key, bytes) pair. -/
def streamOut (T : CppScalar) (k : SerializedMember) (v : Nat) : SerializedMember :=
  let t := _fillArray T v
  if t.length = 0 then k
  else (_getTypeKey T, _setSize t 1)

/-- The loop of fillOutputVector (lines 402-413), carried state (size, t):
an element whose encoding is empty decrements the uint32_t counter (wrapping
mod 2 to the 32) and contributes no bytes; any other element appends its
encoding. -/
def fillLoop (T : CppScalar) : List Nat → Nat × ByteVec → Nat × ByteVec
  | [], st => st
  | x :: xs, (size, t) =>
    let member := _fillArray T x
    if member.length = 0 then fillLoop T xs ((size + (2 ^ 32 - 1)) % 2 ^ 32, t)
    else fillLoop T xs (size, t ++ member)

/-- fillOutputVector (lines 395-419): start the uint32_t counter at the input
length (truncated), run the loop, and prepend the final count with _setSize.
The shrink-to-fit swap at line 417 has no observable effect. -/
def fillOutputVector (T : CppScalar) (l : List Nat) : ByteVec :=
  let st := fillLoop T l (l.length % 2 ^ 32, [])
  _setSize st.2 st.1

/-- The byte slice decoded for element idx by readByteVec (lines 513-516):
input.begin()+4+idx*indSize up to input.begin()+4+(idx+1)*indSize, passed to
_readArray.  (The slice is clamped at the list end; whether the source
iterator arithmetic stays inside the buffer is tracked by
readByteVecAccessOk.) -/
def decodeElem (T : CppScalar) (input : ByteVec) (idx : Nat) : Nat :=
  _readArray T ((input.drop (4 + idx * (_getSize T / 8))).take (_getSize T / 8))

/-- readByteVec (lines 499-520) at a fixed-array destination (the iterator is
a pointer into the array, so each loop step writes positionally): read the
count, test input.size() against size*indSize + 4 in uint32_t arithmetic, and
on success write min(size, outsize) decoded elements (outsize 0 means no
cap). -/
def readByteVecArr (T : CppScalar) (v : List Nat) (input : ByteVec)
    (outsize : Nat) : List Nat :=
  let size := _getSizeVec input
  let indSize := _getSize T / 8
  if input.length < (size * indSize + 4) % 2 ^ 32 then v
  else
    let readSize := if 0 < outsize then min size outsize else size
    (List.range readSize).foldl (fun acc idx => acc.set idx (decodeElem T input idx)) v

/-- readByteVec (lines 499-520) at a std::back_inserter destination (the
vector overload passes no outsize, so the default 0 applies and readSize is
the full count): every loop step appends one decoded element. -/
def readByteVecVec (T : CppScalar) (v : List Nat) (input : ByteVec) : List Nat :=
  let size := _getSizeVec input
  let indSize := _getSize T / 8
  if input.length < (size * indSize + 4) % 2 ^ 32 then v
  else
    (List.range size).foldl (fun acc idx => acc ++ [decodeElem T input idx]) v

/-- Bounds audit of one readByteVec call (lines 499-520 together with the
ByteVec overload of _getSize at lines 298-302), recording whether every
buffer access stays inside the input:
- _getSize(input) slices input.begin() to input.begin()+4, which is inside
  the buffer exactly when the buffer holds at least 4 bytes;
- if the length test fails the call returns before any further access;
- otherwise the element copies for idx < readSize cover the byte range
  4 to 4 + readSize*indSize. -/
def readByteVecAccessOk (T : CppScalar) (input : ByteVec) (outsize : Nat) : Bool :=
  if input.length < 4 then false
  else
    let size := _getSizeVec input
    let indSize := _getSize T / 8
    if input.length < (size * indSize + 4) % 2 ^ 32 then true
    else
      let readSize := if 0 < outsize then min size outsize else size
      decide (4 + readSize * indSize ≤ input.length)

/-- InStreamHelper of T, streamIn (lines 483-497), scalar destination: on a
type-key mismatch or a buffer shorter than count plus payload, leave the
destination untouched; otherwise decode bytes 4 to 4+width from the stored
buffer. -/
def streamInScalar (T : CppScalar) (k : SerializedMember) (v : Nat) : Nat :=
  if k.1 ≠ _getTypeKey T ∨ k.2.length < _getSize T / 8 + 4 then v
  else _readArray T ((k.2.drop 4).take (_getSize T / 8))

/-- InStreamHelper of T[N], streamIn (lines 522-534): on a type-key mismatch
leave the array untouched, otherwise run readByteVec with the array extent as
outsize (here the extent is the length of the modelled destination). -/
def streamInArr (T : CppScalar) (k : SerializedMember) (v : List Nat) : List Nat :=
  if k.1 ≠ _getTypeKey T then v
  else readByteVecArr T v k.2 v.length

/-- InStreamHelper of std::vector of T, streamIn (lines 536-548): on a
type-key mismatch leave the vector untouched, otherwise append the decoded
elements through the back inserter. -/
def streamInVec (T : CppScalar) (k : SerializedMember) (v : List Nat) : List Nat :=
  if k.1 ≠ _getTypeKey T then v
  else readByteVecVec T v k.2

/-- A polymorphic serializable entity, reduced to the data the Factory claims
depend on: its concrete runtime type (an opaque identifier) and its member
store. -/
structure Serializable where
  ctype : Nat
  members : List (String × SerializedMember)
deriving DecidableEq

/-- Modelled from the spec: Serializable::create (line 314) is a pure virtual
self-cloning capability whose concrete overrides are outside this repository;
per the spec it produces a new, blank instance of the same concrete runtime
type. -/
def Serializable.create (p : Serializable) : Serializable :=
  ⟨p.ctype, []⟩

/-- The Factory registry state: the name-to-prototype map _serializables
(line 366), as an association list with at most one binding per name (lookup
takes the first match, and Factory.add never inserts a duplicate name). -/
abbrev Factory := List (String × Serializable)

/-- _serializables.find(cName): first binding for the name, if any. -/
def findEntry : Factory → String → Option Serializable
  | [], _ => none
  | (n, p) :: rest, name => if n = name then some p else findEntry rest name

/-- Factory::add (lines 343-352).  The result pairs the new map with the list
of prototypes the registry deletes during the call; the body of add contains
no delete, so that list is always empty: a null pointer returns immediately,
a fresh name is inserted, and a duplicate name is ignored (the rejected
instance is neither stored nor destroyed). -/
def Factory.add (m : Factory) (cName : String) (cInst : Option Serializable) :
    Factory × List Serializable :=
  match cInst with
  | none => (m, [])
  | some p =>
    match findEntry m cName with
    | some _ => (m, [])
    | none => (m ++ [(cName, p)], [])

/-- Factory::create (lines 354-362): look the name up; NULL (none) when
absent, otherwise the self-clone of the stored prototype. -/
def Factory.create (m : Factory) (cName : String) : Option Serializable :=
  match findEntry m cName with
  | none => none
  | some p => some p.create

/-- Factory::~Factory (lines 334-341): the registry deletes every prototype
it still stores. -/
def Factory.dtor (m : Factory) : List Serializable :=
  m.map (fun e => e.2)

/-- A sequence of later Factory::add calls, used to state that a stored
binding survives any subsequent registrations. -/
def applyAdds (m : Factory) : List (String × Option Serializable) → Factory
  | [] => m
  | (n, p) :: ops => applyAdds (Factory.add m n p).1 ops

/-- Descriptor of uint8_t. -/
def uint8T : CppScalar := ⟨Kind.integral, 1, false⟩

/-- Descriptor of uint16_t. -/
def uint16T : CppScalar := ⟨Kind.integral, 2, false⟩

/-- Number of elements of a sequence whose scalar encoding is non-empty (the
count fillOutputVector reports, before uint32_t truncation). -/
def countSupported (T : CppScalar) : List Nat → Nat
  | [] => 0
  | x :: xs => (if (_fillArray T x).length = 0 then 0 else 1) + countSupported T xs

/-- Number of elements of a sequence whose scalar encoding is empty. -/
def countEmpty (T : CppScalar) : List Nat → Nat
  | [] => 0
  | x :: xs => (if (_fillArray T x).length = 0 then 1 else 0) + countEmpty T xs

/-- The concatenated scalar encodings of a sequence, in order (elements with
empty encodings contribute nothing). -/
def catEncodings (T : CppScalar) : List Nat → ByteVec
  | [] => []
  | x :: xs => _fillArray T x ++ catEncodings T xs

/-- The uint32_t counter of the fillOutputVector loop, tracked alone. -/
def fillSize (T : CppScalar) : List Nat → Nat → Nat
  | [], s => s
  | x :: xs, s =>
    if (_fillArray T x).length = 0 then fillSize T xs ((s + (2 ^ 32 - 1)) % 2 ^ 32)
    else fillSize T xs s

/- Helper lemmas. -/

lemma length_fillArrayInt (T : CppScalar) (v : Nat) :
    (_fillArrayInt T v).length = _getSize T / 8 := by
  simp [_fillArrayInt]

lemma getSize_of_typeKeyInt (T : CppScalar) (h : _getTypeKeyInt T ≠ Type'.NONE) :
    _getSize T = 8 ∨ _getSize T = 16 ∨ _getSize T = 32 ∨ _getSize T = 64 := by
  unfold _getTypeKeyInt at h
  split at h <;> simp_all

lemma getSize_of_typeKeyFloat (T : CppScalar) (h : _getTypeKeyFloat T ≠ Type'.NONE) :
    _getSize T = 32 ∨ _getSize T = 64 ∨ _getSize T = 128 := by
  unfold _getTypeKeyFloat at h
  split at h <;> simp_all

lemma length_floatToInt128 (v : Nat) : (_floatToInt128 v).length = 16 := by
  simp only [_floatToInt128, List.length_append, length_fillArrayInt]
  rfl

lemma length_fillArrayFloat_cases (T : CppScalar) (v : Nat) :
    (_fillArrayFloat T v).length = 0 ∨ (_fillArrayFloat T v).length = _getSize T / 8 := by
  unfold _fillArrayFloat
  split
  · next heq =>
    right
    simp only [length_fillArrayInt, heq]
    rfl
  · next heq =>
    right
    simp only [length_fillArrayInt, heq]
    rfl
  · next heq =>
    right
    simp only [length_floatToInt128, heq]
  · left; rfl

lemma fillArray_len_cases (T : CppScalar) (v : Nat) :
    (_fillArray T v).length = 0 ∨ (_fillArray T v).length = _getSize T / 8 := by
  unfold _fillArray
  rcases T with ⟨k, s, sg⟩
  cases k with
  | integral => right; exact length_fillArrayInt _ v
  | floating => exact length_fillArrayFloat_cases _ v
  | other => left; rfl

lemma fillArray_supported (T : CppScalar) (v : Nat) (h : _getTypeKey T ≠ Type'.NONE) :
    (_fillArray T v).length = _getSize T / 8 ∧ 8 ≤ _getSize T := by
  unfold _getTypeKey at h
  rcases T with ⟨k, s, sg⟩
  cases k with
  | integral =>
    refine ⟨length_fillArrayInt _ v, ?_⟩
    rcases getSize_of_typeKeyInt _ h with h8 | h8 | h8 | h8 <;> omega
  | floating =>
    have hs := getSize_of_typeKeyFloat _ h
    constructor
    · rcases length_fillArrayFloat_cases ⟨Kind.floating, s, sg⟩ v with h0 | h0
      · exfalso
        unfold _fillArrayFloat at h0
        rcases hs with h8 | h8 | h8 <;> rw [h8] at h0 <;>
          simp only [length_fillArrayInt, length_floatToInt128] at h0 <;> exact absurd h0 (by decide)
      · exact h0
    · rcases hs with h8 | h8 | h8 <;> omega
  | other => simp at h

lemma foldl_range_succ {α : Type} (g : α → Nat → α) (a : α) (n : Nat) :
    (List.range (n + 1)).foldl g a = g ((List.range n).foldl g a) n := by
  rw [List.range_succ, List.foldl_append]
  rfl

lemma foldl_append_range (f : Nat → Nat) (v : List Nat) (n : Nat) :
    (List.range n).foldl (fun acc i => acc ++ [f i]) v = v ++ (List.range n).map f := by
  induction n with
  | zero => simp
  | succ k ih => rw [foldl_range_succ, ih]; simp [List.range_succ]

lemma drop_eq_getD_cons (v : List Nat) (n : Nat) (h : n < v.length) :
    v.drop n = v.getD n 0 :: v.drop (n + 1) := by
  induction v generalizing n with
  | nil => simp at h
  | cons x t ih =>
    cases n with
    | zero => simp [List.getD]
    | succ m =>
      show t.drop m = (x :: t).getD (m + 1) 0 :: t.drop (m + 1)
      rw [List.getD_cons_succ]
      exact ih m (by simpa using h)

lemma set_append_len (a b : List Nat) (x : Nat) (n : Nat) (h : n = a.length) :
    (a ++ b).set n x = a ++ b.set 0 x := by
  subst h
  induction a with
  | nil => simp
  | cons y t ih =>
    show y :: ((t ++ b).set t.length x) = y :: (t ++ b.set 0 x)
    rw [ih]

lemma foldl_set_range (f : Nat → Nat) (v : List Nat) (n : Nat) (h : n ≤ v.length) :
    (List.range n).foldl (fun acc i => acc.set i (f i)) v
      = (List.range n).map f ++ v.drop n := by
  induction n with
  | zero => simp
  | succ k ih =>
    have hk : k < v.length := by omega
    rw [foldl_range_succ, ih (by omega)]
    rw [set_append_len _ _ _ _ (by simp)]
    rw [drop_eq_getD_cons v k hk]
    simp [List.range_succ]

lemma fillLoop_eq (T : CppScalar) :
    ∀ (l : List Nat) (s : Nat) (t : ByteVec),
      fillLoop T l (s, t) = (fillSize T l s, t ++ catEncodings T l) := by
  intro l
  induction l with
  | nil => intro s t; simp [fillLoop, fillSize, catEncodings]
  | cons x xs ih =>
    intro s t
    by_cases h0 : (_fillArray T x).length = 0
    · have hx : _fillArray T x = [] := List.eq_nil_of_length_eq_zero h0
      simp [fillLoop, fillSize, catEncodings, h0, hx, ih]
    · simp [fillLoop, fillSize, catEncodings, h0, ih, List.append_assoc]

lemma fillSize_eq (T : CppScalar) :
    ∀ (l : List Nat) (s : Nat), s < 2 ^ 32 →
      fillSize T l s = (s + (2 ^ 32 - 1) * countEmpty T l) % 2 ^ 32 := by
  intro l
  induction l with
  | nil =>
    intro s hs
    simp only [fillSize, countEmpty]
    omega
  | cons x xs ih =>
    intro s hs
    by_cases h0 : (_fillArray T x).length = 0
    · rw [show fillSize T (x :: xs) s
          = fillSize T xs ((s + (2 ^ 32 - 1)) % 2 ^ 32) by simp [fillSize, h0]]
      rw [ih _ (Nat.mod_lt _ (by norm_num))]
      rw [Nat.mod_add_mod]
      have hcnt : countEmpty T (x :: xs) = 1 + countEmpty T xs := by
        simp [countEmpty, h0]
      rw [hcnt]
      congr 1
      ring
    · rw [show fillSize T (x :: xs) s = fillSize T xs s by simp [fillSize, h0]]
      rw [ih _ hs]
      have hcnt : countEmpty T (x :: xs) = countEmpty T xs := by
        simp [countEmpty, h0]
      rw [hcnt]

lemma count_split (T : CppScalar) (l : List Nat) :
    countSupported T l + countEmpty T l = l.length := by
  induction l with
  | nil => rfl
  | cons x xs ih =>
    by_cases h0 : (_fillArray T x).length = 0 <;>
      simp [countSupported, countEmpty, h0] <;> omega

lemma fillOutputVector_eq (T : CppScalar) (l : List Nat) :
    fillOutputVector T l = _setSize (catEncodings T l) (countSupported T l) := by
  unfold fillOutputVector
  rw [fillLoop_eq]
  simp only [List.nil_append]
  unfold _setSize
  have hcount : fillSize T l (l.length % 2 ^ 32) % 2 ^ 32
      = countSupported T l % 2 ^ 32 := by
    rw [fillSize_eq T l _ (Nat.mod_lt _ (by norm_num))]
    have hsplit := count_split T l
    omega
  rw [hcount]

lemma length_catEncodings (T : CppScalar) (l : List Nat) :
    (catEncodings T l).length = countSupported T l * (_getSize T / 8) := by
  induction l with
  | nil => simp [catEncodings, countSupported]
  | cons x xs ih =>
    by_cases hz : (_fillArray T x).length = 0
    · simp [catEncodings, countSupported, hz, ih]
    · have h0 : (_fillArray T x).length = _getSize T / 8 :=
        (fillArray_len_cases T x).resolve_left hz
      have hcs : countSupported T (x :: xs) = 1 + countSupported T xs := by
        simp [countSupported, hz]
      simp only [catEncodings, List.length_append, ih, h0, hcs]
      ring

lemma countSupported_of_all_nonempty (T : CppScalar) (l : List Nat)
    (h : ∀ x ∈ l, (_fillArray T x).length ≠ 0) : countSupported T l = l.length := by
  induction l with
  | nil => rfl
  | cons x xs ih =>
    have hx := h x (by simp)
    simp only [countSupported, if_neg hx, List.length_cons,
      ih (fun y hy => h y (by simp [hy]))]
    omega

lemma findEntry_append_some (m l : Factory) (name : String) (p : Serializable)
    (h : findEntry m name = some p) : findEntry (m ++ l) name = some p := by
  induction m with
  | nil => simp [findEntry] at h
  | cons e rest ih =>
    obtain ⟨n, q⟩ := e
    by_cases hn : n = name
    · simp only [findEntry, if_pos hn] at h
      simp only [List.cons_append, findEntry, if_pos hn, h]
    · simp only [findEntry, if_neg hn] at h
      simp only [List.cons_append, findEntry, if_neg hn]
      exact ih h

lemma findEntry_append_new (m : Factory) (name : String) (p : Serializable)
    (h : findEntry m name = none) : findEntry (m ++ [(name, p)]) name = some p := by
  induction m with
  | nil => simp [findEntry]
  | cons e rest ih =>
    obtain ⟨n, q⟩ := e
    by_cases hn : n = name
    · simp only [findEntry, if_pos hn] at h
      exact absurd h (by simp)
    · simp only [findEntry, if_neg hn] at h
      simp only [List.cons_append, findEntry, if_neg hn]
      exact ih h

lemma findEntry_applyAdds (ops : List (String × Option Serializable)) :
    ∀ (m : Factory) (name : String) (p : Serializable),
      findEntry m name = some p → findEntry (applyAdds m ops) name = some p := by
  induction ops with
  | nil =>
    intro m name p h
    simpa [applyAdds] using h
  | cons op rest ih =>
    intro m name p h
    obtain ⟨n, q⟩ := op
    simp only [applyAdds]
    apply ih
    cases q with
    | none => simpa [Factory.add] using h
    | some q' =>
      cases hf : findEntry m n with
      | some r => simpa [Factory.add, hf] using h
      | none =>
        simp only [Factory.add, hf]
        exact findEntry_append_some m [(n, q')] name p h

/- Claim theorems. -/

/-- C1: the claimed scalar round trip decodeScalar(encodeScalar(v)) == v
fails on the code as written: evaluated at T = uint16_t and v = 0x1234, the
decode loop of _readArrayInt in its literal per-bit form returns 0xFFFC, not
0x1234, while the evidently intended per-byte loop (the mirror image of
_fillArrayInt) does return 0x1234. -/
theorem c1_scalar_roundtrip_code_bug :
    _readArrayIntBuggy uint16T (_fillArray uint16T 0x1234) = 0xFFFC ∧
    _readArrayIntBuggy uint16T (_fillArray uint16T 0x1234) ≠ 0x1234 ∧
    _readArrayInt uint16T (_fillArray uint16T 0x1234) = 0x1234 := by
  decide

/-- C2 counterexample: after add(A, p1) then add(A, p2) on an empty registry,
the registry keeps p1 only, but the list of prototypes the registry deletes
during the second call is empty: p2 is not destroyed at the time of the
rejected registration, contrary to the claim. -/
theorem c2_duplicate_add_counterexample :
    (Factory.add (Factory.add [] "A" (some ⟨1, []⟩)).1 "A" (some ⟨2, []⟩)).1
      = [("A", ⟨1, []⟩)] ∧
    (Factory.add (Factory.add [] "A" (some ⟨1, []⟩)).1 "A" (some ⟨2, []⟩)).2 = [] ∧
    (⟨2, []⟩ : Serializable) ∉
      (Factory.add (Factory.add [] "A" (some ⟨1, []⟩)).1 "A" (some ⟨2, []⟩)).2 := by
  decide

/-- C2 amended: for a name not yet registered, after add(name, p1) then
add(name, p2) the registry is exactly as after the first call (p1 kept, p2
not inserted), the registry destroys nothing during the rejected second
registration (p2 is merely ignored, left to the caller), and every later
create(name), after any further sequence of registrations, yields a blank
instance of the concrete type of p1. -/
theorem c2_duplicate_add_keeps_first (m : Factory) (name : String)
    (p1 p2 : Serializable) (ops : List (String × Option Serializable))
    (h : findEntry m name = none) :
    (Factory.add (Factory.add m name (some p1)).1 name (some p2)).1
      = (Factory.add m name (some p1)).1 ∧
    (Factory.add (Factory.add m name (some p1)).1 name (some p2)).2 = [] ∧
    Factory.create
        (applyAdds (Factory.add (Factory.add m name (some p1)).1 name (some p2)).1 ops)
        name
      = some (Serializable.create p1) := by
  have h1 : (Factory.add m name (some p1)).1 = m ++ [(name, p1)] := by
    simp [Factory.add, h]
  have h2 : findEntry (Factory.add m name (some p1)).1 name = some p1 := by
    rw [h1]
    exact findEntry_append_new m name p1 h
  have houter : Factory.add (Factory.add m name (some p1)).1 name (some p2)
      = ((Factory.add m name (some p1)).1, []) := by
    generalize hM : (Factory.add m name (some p1)).1 = M at h2 ⊢
    simp [Factory.add, h2]
  refine ⟨by rw [houter], by rw [houter], ?_⟩
  rw [houter]
  have h3 := findEntry_applyAdds ops _ name p1 h2
  simp [Factory.create, h3]

/-- C2 witness: the amended statement at the empty registry, name A,
prototypes of concrete types 1 and 9, followed by two further
registrations. -/
theorem c2_duplicate_add_keeps_first_witness :
    findEntry ([] : Factory) "A" = none ∧
    ((Factory.add (Factory.add [] "A" (some ⟨1, []⟩)).1 "A" (some ⟨9, []⟩)).1
        = (Factory.add [] "A" (some ⟨1, []⟩)).1 ∧
      (Factory.add (Factory.add [] "A" (some ⟨1, []⟩)).1 "A" (some ⟨9, []⟩)).2 = [] ∧
      Factory.create
          (applyAdds (Factory.add (Factory.add [] "A" (some ⟨1, []⟩)).1 "A" (some ⟨9, []⟩)).1
            [("B", some ⟨3, []⟩), ("A", some ⟨4, []⟩)])
          "A"
        = some (Serializable.create ⟨1, []⟩)) :=
  ⟨rfl, c2_duplicate_add_keeps_first [] "A" ⟨1, []⟩ ⟨9, []⟩
    [("B", some ⟨3, []⟩), ("A", some ⟨4, []⟩)] rfl⟩

/-- C3 counterexample: encoding the uint16 value 0x1234 into a member does
not produce the claimed buffer [0x02, 0x00, 0x00, 0x00, 0x34, 0x12]: the
count prepended by _setSize at line 388 is 1, not 2. -/
theorem c3_scenarioA_counterexample :
    streamOut uint16T (Type'.NONE, []) 0x1234
      ≠ (Type'.UINT16, [0x02, 0x00, 0x00, 0x00, 0x34, 0x12]) := by
  decide

/-- C3 amended: encoding the uint16 scalar 0x1234 into any member produces
the stored pair (UINT16, [0x01, 0x00, 0x00, 0x00, 0x34, 0x12]). -/
theorem c3_scenarioA_amended (k : SerializedMember) :
    streamOut uint16T k 0x1234
      = (Type'.UINT16, [0x01, 0x00, 0x00, 0x00, 0x34, 0x12]) := rfl

/-- C4: for every supported scalar type (type key not NONE) and every value,
the stored scalar encoding has length 4 + byteWidth, its first 4 bytes are
the little-endian u32 for 1, and the stored tag is the type key. -/
theorem c4_scalar_layout (T : CppScalar) (v : Nat) (k : SerializedMember)
    (h : _getTypeKey T ≠ Type'.NONE) :
    ((streamOut T k v).2).length = 4 + _getSize T / 8 ∧
    (streamOut T k v).2.take 4 = [1, 0, 0, 0] ∧
    _readArrayInt uint32T ((streamOut T k v).2.take 4) = 1 ∧
    (streamOut T k v).1 = _getTypeKey T := by
  obtain ⟨hlen, h8⟩ := fillArray_supported T v h
  have hdiv : 1 ≤ _getSize T / 8 := (Nat.le_div_iff_mul_le (by norm_num)).mpr (by omega)
  have hne : ¬ (_fillArray T v).length = 0 := by omega
  have hs : streamOut T k v = (_getTypeKey T, _setSize (_fillArray T v) 1) := by
    simp [streamOut, hne]
  have hset : _setSize (_fillArray T v) 1 = 1 :: 0 :: 0 :: 0 :: _fillArray T v := rfl
  rw [hs, hset]
  refine ⟨?_, rfl, ?_, rfl⟩
  · simp only [List.length_cons, hlen]
    omega
  · show _readArrayInt uint32T [1, 0, 0, 0] = 1
    rfl

/-- C4 witness: the layout facts at T = uint16_t, v = 0x1234, starting from
an empty member. -/
theorem c4_scalar_layout_witness :
    _getTypeKey uint16T ≠ Type'.NONE ∧
    (((streamOut uint16T (Type'.NONE, []) 0x1234).2).length = 4 + _getSize uint16T / 8 ∧
      (streamOut uint16T (Type'.NONE, []) 0x1234).2.take 4 = [1, 0, 0, 0] ∧
      _readArrayInt uint32T ((streamOut uint16T (Type'.NONE, []) 0x1234).2.take 4) = 1 ∧
      (streamOut uint16T (Type'.NONE, []) 0x1234).1 = _getTypeKey uint16T) :=
  ⟨by decide, c4_scalar_layout uint16T 0x1234 (Type'.NONE, []) (by decide)⟩

/-- C5 counterexample: a 4-byte buffer whose count field says 2 to the 30
elements of uint32.  The claimed check, buffer length at least
4 + count times elementSize, fails (4 is far below 4 + 2 to the 32), yet the
code writes into the destination anyway, because its uint32_t arithmetic
wraps the bound to 4: a fixed array [7, 7] does not stay unchanged. -/
theorem c5_length_check_counterexample :
    _getSizeVec [0, 0, 0, 64] = 2 ^ 30 ∧
    ([0, 0, 0, 64] : ByteVec).length < 4 + 2 ^ 30 * (_getSize uint32T / 8) ∧
    readByteVecArr uint32T [7, 7] [0, 0, 0, 64] 2 ≠ [7, 7] := by
  decide

/-- C5 amended: sequence decode reads the 4-byte count and compares the
buffer length against count times elementSize plus 4 computed in uint32_t
(mod 2 to the 32) arithmetic; when that computed check fails nothing is
written to the destination, and when it succeeds exactly
min(count, capacity) elements are decoded in order into a fixed-array
destination (capacity = array extent) and exactly count elements are
appended in order to a vector destination.  (Buffers shorter than 4 bytes
are excluded here: there the count read itself overruns the buffer, see the
C9 theorems.) -/
theorem c5_sequence_decode (T : CppScalar) (v w : List Nat) (input : ByteVec)
    (h4 : 4 ≤ input.length) :
    (input.length < (_getSizeVec input * (_getSize T / 8) + 4) % 2 ^ 32 →
      readByteVecArr T v input v.length = v ∧ readByteVecVec T w input = w) ∧
    ((_getSizeVec input * (_getSize T / 8) + 4) % 2 ^ 32 ≤ input.length →
      readByteVecVec T w input
        = w ++ (List.range (_getSizeVec input)).map (decodeElem T input) ∧
      (0 < v.length →
        readByteVecArr T v input v.length
          = (List.range (min (_getSizeVec input) v.length)).map (decodeElem T input)
            ++ v.drop (min (_getSizeVec input) v.length))) := by
  constructor
  · intro hlt
    constructor
    · simp only [readByteVecArr]
      rw [if_pos hlt]
    · simp only [readByteVecVec]
      rw [if_pos hlt]
  · intro hge
    have hnlt : ¬ input.length < (_getSizeVec input * (_getSize T / 8) + 4) % 2 ^ 32 :=
      not_lt.mpr hge
    constructor
    · simp only [readByteVecVec]
      rw [if_neg hnlt]
      exact foldl_append_range _ w _
    · intro hv
      simp only [readByteVecArr]
      rw [if_neg hnlt, if_pos hv]
      exact foldl_set_range _ v _ (min_le_right _ _)

/-- C5 witness: decoding the two uint8 elements 9 and 7 from the buffer
[2, 0, 0, 0, 9, 7] appends them in order to a vector destination. -/
theorem c5_sequence_decode_witness :
    4 ≤ ([2, 0, 0, 0, 9, 7] : ByteVec).length ∧
    (_getSizeVec [2, 0, 0, 0, 9, 7] * (_getSize uint8T / 8) + 4) % 2 ^ 32
      ≤ ([2, 0, 0, 0, 9, 7] : ByteVec).length ∧
    readByteVecVec uint8T [4] [2, 0, 0, 0, 9, 7]
      = [4] ++ (List.range (_getSizeVec [2, 0, 0, 0, 9, 7])).map
          (decodeElem uint8T [2, 0, 0, 0, 9, 7]) :=
  ⟨by decide, by decide,
    ((c5_sequence_decode uint8T [5, 5, 5] [4] [2, 0, 0, 0, 9, 7] (by decide)).2
      (by decide)).1⟩

/-- C6: when the stored tag of a member differs from the type key of the
requested element type, the decode operator leaves the destination unchanged
for all three destination shapes: scalar, fixed array, vector. -/
theorem c6_mismatched_decode (T : CppScalar) (k : SerializedMember) (v : Nat)
    (a w : List Nat) (h : k.1 ≠ _getTypeKey T) :
    streamInScalar T k v = v ∧ streamInArr T k a = a ∧ streamInVec T k w = w := by
  refine ⟨?_, ?_, ?_⟩
  · simp [streamInScalar, h]
  · simp [streamInArr, h]
  · simp [streamInVec, h]

/-- C6 witness: a member tagged NONE decoded at uint16 leaves a scalar, an
array and a vector destination unchanged. -/
theorem c6_mismatched_decode_witness :
    ((Type'.NONE, [1, 0, 0, 0, 9, 9]) : SerializedMember).1 ≠ _getTypeKey uint16T ∧
    (streamInScalar uint16T (Type'.NONE, [1, 0, 0, 0, 9, 9]) 5 = 5 ∧
      streamInArr uint16T (Type'.NONE, [1, 0, 0, 0, 9, 9]) [1, 2] = [1, 2] ∧
      streamInVec uint16T (Type'.NONE, [1, 0, 0, 0, 9, 9]) [3] = [3]) :=
  ⟨by decide,
    c6_mismatched_decode uint16T (Type'.NONE, [1, 0, 0, 0, 9, 9]) 5 [1, 2] [3] (by decide)⟩

/-- C7 amended: the encoded sequence buffer is the 4-byte little-endian
encoding of (number of non-empty-encoded elements, reduced mod 2 to the 32,
the uint32_t counter width) followed by the concatenated element encodings in
input order; every element encoding is either empty (dropped) or exactly
byteWidth(T) bytes; and the total length is 4 plus the exact (unreduced)
non-empty count times byteWidth(T).  For sequences shorter than 2 to the 32
elements this is precisely the original claim. -/
theorem c7_sequence_layout (T : CppScalar) (l : List Nat) :
    fillOutputVector T l = _setSize (catEncodings T l) (countSupported T l) ∧
    (∀ x : Nat, (_fillArray T x).length = 0 ∨ (_fillArray T x).length = _getSize T / 8) ∧
    (fillOutputVector T l).length = 4 + countSupported T l * (_getSize T / 8) := by
  refine ⟨fillOutputVector_eq T l, fillArray_len_cases T, ?_⟩
  rw [fillOutputVector_eq]
  simp only [_setSize, List.length_append, length_fillArrayInt, length_catEncodings]
  have h4 : _getSize uint32T / 8 = 4 := rfl
  omega

/-- C7 counterexample: a sequence of 2 to the 32 uint8 elements has 2 to the
32 non-empty-encoded elements, but the stored 4-byte count reads back as 0:
the uint32_t counter of fillOutputVector wraps, so the stored count does not
equal the number of successfully encoded elements as claimed. -/
theorem c7_count_truncation_counterexample :
    countSupported uint8T (List.replicate (2 ^ 32) 0) = 2 ^ 32 ∧
    _readArrayInt uint32T ((fillOutputVector uint8T (List.replicate (2 ^ 32) 0)).take 4) = 0 ∧
    (0 : Nat) ≠ 2 ^ 32 := by
  have h1 : ∀ x : Nat, (_fillArray uint8T x).length = 1 := fun _ => rfl
  have hcount : countSupported uint8T (List.replicate (2 ^ 32) 0) = 2 ^ 32 := by
    have hall : ∀ x ∈ List.replicate (2 ^ 32) (0 : Nat), (_fillArray uint8T x).length ≠ 0 := by
      intro x hx
      rw [h1 x]
      omega
    rw [countSupported_of_all_nonempty uint8T _ hall, List.length_replicate]
  refine ⟨hcount, ?_, by norm_num⟩
  rw [fillOutputVector_eq, hcount]
  rfl

/-- C8: Factory::create returns NULL (none) for an unregistered name and,
for a registered name, a fresh blank instance of the concrete type of the
stored prototype (the self-clone capability being modelled from the spec,
since the concrete overrides of the pure virtual create live outside this
repository). -/
theorem c8_factory_create (m : Factory) (name : String) :
    (findEntry m name = none → Factory.create m name = none) ∧
    (∀ p : Serializable, findEntry m name = some p →
      Factory.create m name = some ⟨p.ctype, []⟩) := by
  constructor
  · intro h
    simp [Factory.create, h]
  · intro p h
    simp [Factory.create, h, Serializable.create]

/-- C8 witness: a registry holding one prototype of concrete type 7 under
Foo: create(Foo) yields a blank instance of type 7, create(Bar) yields
none. -/
theorem c8_factory_create_witness :
    findEntry [("Foo", ⟨7, [("x", (Type'.UINT8, [1, 0, 0, 0, 5]))]⟩)] "Bar" = none ∧
    Factory.create [("Foo", ⟨7, [("x", (Type'.UINT8, [1, 0, 0, 0, 5]))]⟩)] "Bar" = none ∧
    findEntry [("Foo", ⟨7, [("x", (Type'.UINT8, [1, 0, 0, 0, 5]))]⟩)] "Foo"
      = some ⟨7, [("x", (Type'.UINT8, [1, 0, 0, 0, 5]))]⟩ ∧
    Factory.create [("Foo", ⟨7, [("x", (Type'.UINT8, [1, 0, 0, 0, 5]))]⟩)] "Foo"
      = some ⟨7, []⟩ :=
  ⟨by decide, (c8_factory_create _ "Bar").1 (by decide), by decide,
    (c8_factory_create [("Foo", ⟨7, [("x", (Type'.UINT8, [1, 0, 0, 0, 5]))]⟩)] "Foo").2
      ⟨7, [("x", (Type'.UINT8, [1, 0, 0, 0, 5]))]⟩ (by decide)⟩

/-- C9 counterexample: on a 3-byte member buffer the count read of sequence
decode does not stay in bounds: the _getSize slice from begin() to begin()+4
overruns the buffer, so the bounds audit reports false. -/
theorem c9_short_buffer_counterexample :
    readByteVecAccessOk uint32T [1, 2, 3] 0 = false := by
  decide

/-- C9 amended: for member buffers of at least 4 bytes, and counts small
enough that the uint32_t bound count times elementSize plus 4 does not wrap,
every buffer access of sequence decode stays inside the stored buffer (on a
failed length check nothing beyond the count is read; on success all element
slices lie below the checked bound). -/
theorem c9_decode_in_bounds (T : CppScalar) (input : ByteVec) (outsize : Nat)
    (h4 : 4 ≤ input.length)
    (hnov : _getSizeVec input * (_getSize T / 8) + 4 < 2 ^ 32) :
    readByteVecAccessOk T input outsize = true := by
  simp only [readByteVecAccessOk]
  rw [if_neg (by omega)]
  split
  · rfl
  · next hlt =>
    rw [decide_eq_true_eq]
    rw [Nat.mod_eq_of_lt hnov] at hlt
    have hr : (if 0 < outsize then min (_getSizeVec input) outsize else _getSizeVec input)
        ≤ _getSizeVec input := by
      split
      · exact min_le_left _ _
      · exact le_refl _
    have hmul : (if 0 < outsize then min (_getSizeVec input) outsize else _getSizeVec input)
        * (_getSize T / 8) ≤ _getSizeVec input * (_getSize T / 8) :=
      Nat.mul_le_mul_right _ hr
    omega

/-- C9 witness: the in-bounds audit at a 4-byte buffer with count 0. -/
theorem c9_decode_in_bounds_witness :
    4 ≤ ([0, 0, 0, 0] : ByteVec).length ∧
    _getSizeVec [0, 0, 0, 0] * (_getSize uint8T / 8) + 4 < 2 ^ 32 ∧
    readByteVecAccessOk uint8T [0, 0, 0, 0] 0 = true :=
  ⟨by decide, by decide, c9_decode_in_bounds uint8T [0, 0, 0, 0] 0 (by decide) (by decide)⟩

/-- C10: Factory::add with a null prototype is a no-op: the mapping is
returned unchanged, nothing is deleted, and every later lookup-and-create
behaves as before the call. -/
theorem c10_add_null_noop (m : Factory) (name k : String) :
    Factory.add m name none = (m, []) ∧
    Factory.create (Factory.add m name none).1 k = Factory.create m k :=
  ⟨rfl, rfl⟩

end serial
